import Mathlib

/-!
# Verification of the recap history-aggregation engine

Shallow embedding of the three analyzers of the `recap` repository
(`src/bus_factor.rs`, `src/hotspots/mod.rs`, `src/who_knows/analyzer.rs`)
together with proofs of the specification claims about them.

Modelling conventions:
* Rust `&str` values are modelled as `List Char`; the string helpers below
  (`trimL`, `startsWithL`, `endsWithL`, …) reproduce the corresponding
  `str` methods on the ASCII inputs the analyzers handle.
* Rust `f64` percentages are modelled as exact rationals `ℚ`.
* `HashMap`/`HashSet` are modelled as insertion-ordered association lists;
  their Rust iteration order is unspecified, and theorems that depend on an
  order quantify over the list order where that matters.
* Timestamps (`DateTime<Utc>` / `DateTime<Local>` / unix seconds) are
  modelled as `Int`; all operations the code performs on them (comparison,
  maximum) are order-theoretic, so this is faithful.
* Process spawning and exit-status checking are modelled by explicit
  environment records carrying the success flags and captured output.
-/

/-- ASCII whitespace, the cases of Rust `char::is_whitespace` that occur in
the analyzers' text inputs. -/
def isWsChar (c : Char) : Bool :=
  c = ' ' || c = '\t' || c = '\n' || c = '\r'

/-- Model of Rust `str::trim`: remove leading and trailing whitespace. -/
def trimL (l : List Char) : List Char :=
  ((l.dropWhile isWsChar).reverse.dropWhile isWsChar).reverse

/-- Model of Rust `str::starts_with`: `startsWithL s p` is true when `p` is
an initial segment of `s`. -/
def startsWithL : List Char → List Char → Bool
  | _, [] => true
  | [], _ :: _ => false
  | c :: cs, p :: ps => c = p && startsWithL cs ps

/-- Model of Rust `str::ends_with`. -/
def endsWithL (s p : List Char) : Bool :=
  startsWithL s.reverse p.reverse

/-- Model of Rust `str::to_lowercase` on the ASCII paths the code handles. -/
def toLowerL (l : List Char) : List Char :=
  l.map Char.toLower

/-!
## Bus factor analyzer (`src/bus_factor.rs`)
-/

/-- `BusFactorResult` (src/bus_factor.rs, lines 13–19); the `f64`
`ownership_percentage` is modelled as an exact rational. -/
structure BusFactorResult where
  path : List Char
  dominant_author : List Char
  ownership_percentage : ℚ
  total_lines : Nat
deriving DecidableEq, Repr

/-- The mutable state of the blame-parsing loop in
`BusFactorAnalyzer::analyze_file` (src/bus_factor.rs, lines 117–120):
`author_lines: HashMap<String, usize>` is modelled as an insertion-ordered
association list. -/
structure BlameAcc where
  current_author : List Char
  author_lines : List (List Char × Nat)
  total_lines : Nat
  in_multiline_comment : Bool
deriving DecidableEq, Repr

/-- `*author_lines.entry(current_author.clone()).or_insert(0) += 1`
(src/bus_factor.rs, line 152) on the association-list model: increment the
existing entry, or append a new entry with count 1. -/
def bumpAuthor : List (List Char × Nat) → List Char → List (List Char × Nat)
  | [], a => [(a, 1)]
  | (b, n) :: rest, a =>
      if b = a then (b, n + 1) :: rest else (b, n) :: bumpAuthor rest a

/-- The body of the `else if line.starts_with('\t')` branch of the blame loop
(src/bus_factor.rs, lines 125–153), applied to `line[1..]`: trim, then the
empty / `/*` / `*/` / in-comment-or-`*` / `//` cascade, counting every
surviving line for the current author. -/
def processCodeLine (acc : BlameAcc) (raw : List Char) : BlameAcc :=
  let code_line := trimL raw
  if code_line.isEmpty then acc
  else if startsWithL code_line "/*".data then
    { acc with in_multiline_comment := true }
  else if endsWithL code_line "*/".data then
    { acc with in_multiline_comment := false }
  else if acc.in_multiline_comment || startsWithL code_line "*".data then acc
  else if startsWithL code_line "//".data then acc
  else
    { acc with total_lines := acc.total_lines + 1,
               author_lines := bumpAuthor acc.author_lines acc.current_author }

/-- One iteration of `for line in blame_output.lines()`
(src/bus_factor.rs, lines 122–154): `author ` lines set the current author
(`line[7..]`), tab-indented lines are code lines, everything else is ignored. -/
def blameStep (acc : BlameAcc) (line : List Char) : BlameAcc :=
  if startsWithL line "author ".data then
    { acc with current_author := line.drop 7 }
  else if startsWithL line "\t".data then processCodeLine acc (line.drop 1)
  else acc

/-- Run the blame-parsing loop over the whole `git blame --line-porcelain`
output (src/bus_factor.rs, lines 117–154). -/
def runBlame (lines : List (List Char)) : BlameAcc :=
  lines.foldl blameStep ⟨[], [], 0, false⟩

/-- Rust `Iterator::max_by_key` on `(author, count)` pairs
(src/bus_factor.rs, lines 160–162): `none` on the empty list, otherwise the
last element attaining the maximal count. -/
def maxByKeyLast : List (List Char × Nat) → Option (List Char × Nat)
  | [] => none
  | x :: xs => some (xs.foldl (fun best y => if best.2 ≤ y.2 then y else best) x)

/-- `BusFactorAnalyzer::analyze_file` (src/bus_factor.rs, lines 93–173) after
the external effects are resolved: `content` is the file's text (the
`content.trim().is_empty()` pre-check, line 100), `blameLines` the lines of
the captured `git blame` output.  Failure is an `Except.error` carrying the
Rust error message. -/
def analyze_file (path content : List Char) (blameLines : List (List Char)) :
    Except String BusFactorResult :=
  if (trimL content).isEmpty then .error "Empty file"
  else
    let acc := runBlame blameLines
    if acc.total_lines = 0 then .error "No lines to analyze"
    else
      let d := (maxByKeyLast acc.author_lines).getD ("Unknown".data, 0)
      .ok { path := path,
            dominant_author := d.1,
            ownership_percentage := ((d.2 : ℚ) / (acc.total_lines : ℚ)) * 100,
            total_lines := acc.total_lines }

/-- One file as the directory walk of `analyze_directory` visits it: its
repo-relative path, its text content, and its blame output. -/
structure SourceFile where
  path : List Char
  content : List Char
  blame : List (List Char)
deriving DecidableEq, Repr

/-- `BusFactorAnalyzer::analyze_directory` (src/bus_factor.rs, lines 53–91)
restricted to its aggregation behaviour: the walk is modelled as the sequence
of visited files; `Ok` results meeting the threshold are pushed, `Err`
results are skipped (`Err(_) => continue`, line 83). -/
def analyze_directory (threshold : ℚ) (files : List SourceFile) :
    List BusFactorResult :=
  files.foldl
    (fun results f =>
      match analyze_file f.path f.content f.blame with
      | .ok r =>
          if threshold ≤ r.ownership_percentage then results ++ [r] else results
      | .error _ => results)
    []

/-- The comparator passed to `sort_by` in `format_bus_factor_report`
(src/bus_factor.rs, lines 185–194): descending ownership percentage, ties
broken by descending line count.  `busFactorLe a b` means the comparator does
not order `a` strictly after `b`. -/
def busFactorLe (a b : BusFactorResult) : Bool :=
  decide (b.ownership_percentage < a.ownership_percentage) ||
    (decide (b.ownership_percentage = a.ownership_percentage) &&
      decide (b.total_lines ≤ a.total_lines))

/-- The sort performed on the results copy in `format_bus_factor_report`
(src/bus_factor.rs, lines 184–194). -/
def sortBusFactorResults (l : List BusFactorResult) : List BusFactorResult :=
  l.mergeSort busFactorLe

/-!
## Churn / hotspot analyzer (`src/hotspots/mod.rs`)
-/

/-- `FileHotspot` (src/hotspots/mod.rs, lines 10–17); the
`contributors: HashMap<String, usize>` is modelled as an insertion-ordered
association list and `last_modified: DateTime<Utc>` as an `Int` timestamp. -/
structure FileHotspot where
  path : List Char
  commit_count : Nat
  contributor_count : Nat
  last_modified : Int
  contributors : List (List Char × Nat)
deriving DecidableEq, Repr

/-- The `IGNORED_PATTERNS` constant of `is_source_file`
(src/hotspots/mod.rs, lines 262–292), in source order. -/
def IGNORED_PATTERNS : List (List Char) :=
  [ "config".data, "conf".data, "cfg".data, "ini".data, "yaml".data,
    "yml".data, "toml".data, "json".data, "xml".data,
    "properties".data, "env".data, "dist".data, "plist".data,
    "md".data, "markdown".data, "txt".data, "rst".data, "adoc".data,
    "doc".data, "docx".data, "pdf".data,
    "csv".data, "tsv".data, "sql".data, "db".data, "sqlite".data,
    "lock".data, "snapshot".data,
    "min.js".data, "min.css".data, "map".data, "bundle.js".data,
    "bundle.css".data,
    "sum".data, "mod".data, "jar".data, "war".data, "ear".data,
    "class".data, "pyc".data, "pyo".data,
    "o".data, "obj".data, "a".data, "lib".data, "so".data, "dll".data,
    "dylib".data,
    "png".data, "jpg".data, "jpeg".data, "gif".data, "svg".data,
    "ico".data, "bmp".data, "webp".data,
    "mp3".data, "mp4".data, "wav".data, "avi".data, "mov".data,
    "webm".data,
    "ttf".data, "otf".data, "woff".data, "woff2".data, "eot".data,
    "zip".data, "tar".data, "gz".data, "rar".data, "7z".data,
    "gitignore".data, "dockerignore".data, "editorconfig".data,
    "DS_Store".data,
    "eslintrc".data, "prettierrc".data, "babelrc".data,
    "browserslistrc".data ]

/-- The final path component, modelling Rust `Path::file_name` on the
slash-separated relative paths git produces (no trailing slash, no `..`
components). -/
def fileNameL (p : List Char) : List Char :=
  ((p.splitOn '/').getLast?).getD []

/-- `Path::new(file_path).extension().is_some()` (src/hotspots/mod.rs,
lines 304–308): the file name must contain a `.` preceded by a non-empty
part; a lone leading dot (hidden file) yields no extension. -/
def hasExtensionL (p : List Char) : Bool :=
  let f := fileNameL p
  if f = "..".data then false else (f.drop 1).contains '.'

/-- `is_source_file` (src/hotspots/mod.rs, lines 260–311): reject any path
whose lowercased form ends with an ignored pattern, then require a file
extension. -/
def is_source_file (file_path : List Char) : Bool :=
  let lower_path := toLowerL file_path
  if IGNORED_PATTERNS.any (fun pat => endsWithL lower_path pat) then false
  else hasExtensionL file_path

/-- Rust `Path::parent().map(|p| p.to_string_lossy().to_string())` on a
relative slash-separated path (src/hotspots/mod.rs, line 324): everything
before the last component, `""` for a single-component path, `none` only for
the empty path. -/
def parentPath (p : List Char) : Option (List Char) :=
  if p.isEmpty then none
  else
    match (p.splitOn '/').dropLast with
    | [] => some []
    | ps => some (List.intercalate "/".data ps)

/-- The entry mutation of `process_file_change` (src/hotspots/mod.rs,
lines 345–351): increment `commit_count`, bump the author's contributor
entry, refresh `contributor_count` from the map size, and raise
`last_modified` to the event time when it is later. -/
def foldEvent (h : FileHotspot) (commit_time : Int) (author : List Char) :
    FileHotspot :=
  let contributors := bumpAuthor h.contributors author
  { h with
    commit_count := h.commit_count + 1,
    contributors := contributors,
    contributor_count := contributors.length,
    last_modified :=
      if h.last_modified < commit_time then commit_time else h.last_modified }

/-- `hotspots.entry(file_path).or_insert_with(...)` followed by the entry
mutation (src/hotspots/mod.rs, lines 337–351), on the association-list model
of the `HashMap`: update the matching entry in place, or append a fresh entry
(`commit_count: 0`, `contributor_count: 0`, `last_modified: commit_time`,
empty contributors) and mutate it. -/
def updateHotspots (hotspots : List FileHotspot) (file_path : List Char)
    (commit_time : Int) (author : List Char) : List FileHotspot :=
  if hotspots.any (fun h => h.path = file_path) then
    hotspots.map
      (fun h => if h.path = file_path then foldEvent h commit_time author else h)
  else hotspots ++ [foldEvent ⟨file_path, 0, 0, commit_time, []⟩ commit_time author]

/-- The early-return test at the top of `process_file_change`
(src/hotspots/mod.rs, lines 320–331): the function returns without counting
only when the path is not in `existing_files`, the set is non-empty, its
first iteration element has a parent directory, and the path does not start
with that parent; `existing_files` is modelled as a list in iteration
order. -/
def skipCheck (existing_files : List (List Char)) (file_path : List Char) :
    Bool :=
  if existing_files.contains file_path then false
  else
    match existing_files.head? with
    | some first =>
        match parentPath first with
        | some pre => ! startsWithL file_path pre
        | none => false
    | none => false

/-- `process_file_change` (src/hotspots/mod.rs, lines 313–352). -/
def process_file_change (hotspots : List FileHotspot)
    (existing_files : List (List Char)) (file_path : List Char)
    (commit_time : Int) (author : List Char) : List FileHotspot :=
  if skipCheck existing_files file_path then hotspots
  else if ! is_source_file file_path then hotspots
  else updateHotspots hotspots file_path commit_time author

/-- One commit-change event, as the stat-line parsing loop of
`HotspotAnalyzer::analyze` (src/hotspots/mod.rs, lines 209–237) delivers it
to `process_file_change`. -/
structure ChangeEvent where
  file_path : List Char
  commit_time : Int
  author : List Char
deriving DecidableEq, Repr

/-- The aggregation and ranking core of `HotspotAnalyzer::analyze`
(src/hotspots/mod.rs, lines 58–246) after the git-log text has been parsed
into events: fold every event through `process_file_change`, then
`sort_by(|a, b| b.commit_count.cmp(&a.commit_count))` (line 242). -/
def churn_analyze (existing_files : List (List Char))
    (events : List ChangeEvent) : List FileHotspot :=
  let hotspots := events.foldl
    (fun hs e => process_file_change hs existing_files e.file_path e.commit_time e.author)
    []
  hotspots.mergeSort (fun a b => decide (b.commit_count ≤ a.commit_count))

/-!
## Who-knows / expertise analyzer (`src/who_knows/`)
-/

/-- `ContributorStats` (src/who_knows/types.rs, lines 3–9); the
`DateTime<Local>` fields are modelled as `Int` timestamps (the code only
compares them). -/
structure ContributorStats where
  name : List Char
  commit_count : Nat
  last_commit : Int
  first_commit : Int
deriving DecidableEq, Repr

/-- `ContributorStats::new` (src/who_knows/types.rs, lines 12–19). -/
def ContributorStats.make (name : List Char) (timestamp : Int) :
    ContributorStats :=
  ⟨name, 1, timestamp, timestamp⟩

/-- `ContributorStats::update` (src/who_knows/types.rs, lines 21–29). -/
def ContributorStats.update (s : ContributorStats) (timestamp : Int) :
    ContributorStats :=
  { s with
    commit_count := s.commit_count + 1,
    last_commit := if s.last_commit < timestamp then timestamp else s.last_commit,
    first_commit := if timestamp < s.first_commit then timestamp else s.first_commit }

/-- The distinct failure outcomes of `analyze_file_expertise`
(src/who_knows/analyzer.rs); colourised message formatting is presentation
and is not modelled. -/
inductive WkError where
  /-- `"Path '{}' does not exist"` (line 11). -/
  | pathNotFound (path : List Char)
  /-- `"Not a git repository"`: spawning `git rev-parse` failed (line 18). -/
  | notAGitRepository
  /-- `"Not inside a git repository"`: `git rev-parse` exited non-zero (line 21). -/
  | notInsideGitRepository
  /-- `"Failed to execute git command"`: spawning `git log` failed (line 33). -/
  | gitSpawnFailed
  /-- `"Git command failed"`: `git log` exited non-zero (lines 36–39). -/
  | gitCommandFailed
  /-- `"No git history found for '{}'"` (line 44). -/
  | noHistory (path : List Char)
  /-- `"Failed to parse timestamp"` (line 58). -/
  | timestampParseFailed
  /-- `"Invalid timestamp"` (line 61). -/
  | invalidTimestamp (t : Int)
deriving DecidableEq, Repr

/-- Rust `str::lines` (used as `log_output.lines()`): split on `'\n'`,
drop a final empty piece produced by a trailing newline, and strip a
trailing `'\r'` from each line. -/
def rustLines (s : List Char) : List (List Char) :=
  let parts := s.splitOn '\n'
  let parts := if parts.getLast? = some [] then parts.dropLast else parts
  parts.map (fun l => if l.getLast? = some '\r' then l.dropLast else l)

/-- All-digit string to number, `none` when empty or containing a
non-digit. -/
def digitsToNat? (l : List Char) : Option Nat :=
  if l.isEmpty then none
  else if l.all Char.isDigit then
    some (l.foldl (fun n c => n * 10 + (c.toNat - 48)) 0)
  else none

/-- Rust `str::parse::<i64>` (src/who_knows/analyzer.rs, line 57): an
optional sign followed by at least one digit, with the i64 range check. -/
def parseI64 (s : List Char) : Option Int :=
  match s with
  | '+' :: rest =>
      (digitsToNat? rest).bind
        (fun n => if (n : Int) ≤ 2 ^ 63 - 1 then some (n : Int) else none)
  | '-' :: rest =>
      (digitsToNat? rest).bind
        (fun n => if (n : Int) ≤ 2 ^ 63 then some (-(n : Int)) else none)
  | l =>
      (digitsToNat? l).bind
        (fun n => if (n : Int) ≤ 2 ^ 63 - 1 then some (n : Int) else none)

/-- `DateTime::from_timestamp(timestamp, 0)` followed by
`with_timezone(&Local)` (src/who_knows/analyzer.rs, lines 60–62).  chrono's
far-range validity check (timestamps beyond roughly ±262000 years yield
`None`) is not modelled: no claim exercises that branch, and every timestamp
appearing in this development is far inside the valid range, so the
`Invalid timestamp` error path is unreachable in this model. -/
def chronoFromTimestamp (t : Int) : Option Int :=
  some t

/-- `contributors.get_mut(&name)`-update-or-insert (src/who_knows/analyzer.rs,
lines 64–68) on the association-list model keyed by `name`. -/
def updateContributors (m : List ContributorStats) (name : List Char)
    (timestamp : Int) : List ContributorStats :=
  if m.any (fun s => s.name = name) then
    m.map (fun s => if s.name = name then s.update timestamp else s)
  else m ++ [ContributorStats.make name timestamp]

/-- The `for line in log_output.lines()` loop of `analyze_file_expertise`
(src/who_knows/analyzer.rs, lines 49–69): lines without exactly three
tab-separated fields are skipped; a timestamp field that fails to parse
aborts the whole analysis through the `?` operator. -/
def processLogLines (m : List ContributorStats) :
    List (List Char) → Except WkError (List ContributorStats)
  | [] => .ok m
  | line :: rest =>
    let parts := line.splitOn '\t'
    if parts.length ≠ 3 then processLogLines m rest
    else
      match parseI64 (parts.getD 2 []) with
      | none => .error .timestampParseFailed
      | some ts =>
        match chronoFromTimestamp ts with
        | none => .error (.invalidTimestamp ts)
        | some dt => processLogLines (updateContributors m (parts.getD 1 []) dt) rest

/-- The environment `analyze_file_expertise` observes: existence of the
path, the outcomes of the two spawned git commands, and the captured
`git log` output. -/
structure WkEnv where
  path : List Char
  path_exists : Bool
  rev_parse_spawned : Bool
  rev_parse_success : Bool
  git_log_spawned : Bool
  git_log_success : Bool
  log_output : List Char
deriving DecidableEq, Repr

/-- `analyze_file_expertise` (src/who_knows/analyzer.rs, lines 8–75): the
guard cascade, the line-processing loop, and the final
`sort_by(|a, b| b.commit_count.cmp(&a.commit_count))`. -/
def analyze_file_expertise (env : WkEnv) :
    Except WkError (List ContributorStats) :=
  if ! env.path_exists then .error (.pathNotFound env.path)
  else if ! env.rev_parse_spawned then .error .notAGitRepository
  else if ! env.rev_parse_success then .error .notInsideGitRepository
  else if ! env.git_log_spawned then .error .gitSpawnFailed
  else if ! env.git_log_success then .error .gitCommandFailed
  else if (trimL env.log_output).isEmpty then .error (.noHistory env.path)
  else
    match processLogLines [] (rustLines env.log_output) with
    | .error e => .error e
    | .ok m => .ok (m.mergeSort (fun a b => decide (b.commit_count ≤ a.commit_count)))

/-!
## Helper lemmas about the association-list operations
-/

/-- The count stored for key `a`, 0 when absent (`HashMap` lookup on the
association-list model). -/
def lookupCount (m : List (List Char × Nat)) (a : List Char) : Nat :=
  ((m.find? (fun p => decide (p.1 = a))).map Prod.snd).getD 0

theorem bumpAuthor_sum (m : List (List Char × Nat)) (a : List Char) :
    ((bumpAuthor m a).map Prod.snd).sum = (m.map Prod.snd).sum + 1 := by
  induction m with
  | nil => simp [bumpAuthor]
  | cons p rest ih =>
      obtain ⟨b, n⟩ := p
      by_cases hb : b = a <;> simp [bumpAuthor, hb, ih] <;> omega

theorem bumpAuthor_fst_of_mem (m : List (List Char × Nat)) (a : List Char)
    (h : a ∈ m.map Prod.fst) :
    (bumpAuthor m a).map Prod.fst = m.map Prod.fst := by
  induction m with
  | nil => simp at h
  | cons p rest ih =>
      obtain ⟨b, n⟩ := p
      by_cases hb : b = a
      · simp [bumpAuthor, hb]
      · simp only [List.map_cons, List.mem_cons] at h
        rcases h with h | h
        · exact absurd h.symm hb
        · simp [bumpAuthor, hb, ih h]

theorem bumpAuthor_fst_of_not_mem (m : List (List Char × Nat)) (a : List Char)
    (h : a ∉ m.map Prod.fst) :
    (bumpAuthor m a).map Prod.fst = m.map Prod.fst ++ [a] := by
  induction m with
  | nil => simp [bumpAuthor]
  | cons p rest ih =>
      obtain ⟨b, n⟩ := p
      simp only [List.map_cons, List.mem_cons] at h
      push_neg at h
      simp [bumpAuthor, Ne.symm h.1, ih h.2]

theorem bumpAuthor_fst_nodup (m : List (List Char × Nat)) (a : List Char)
    (h : (m.map Prod.fst).Nodup) : ((bumpAuthor m a).map Prod.fst).Nodup := by
  by_cases hm : a ∈ m.map Prod.fst
  · rw [bumpAuthor_fst_of_mem m a hm]; exact h
  · rw [bumpAuthor_fst_of_not_mem m a hm]
    simp [List.nodup_append, h, hm]

theorem lookupCount_bump_self (m : List (List Char × Nat)) (a : List Char) :
    lookupCount (bumpAuthor m a) a = lookupCount m a + 1 := by
  induction m with
  | nil => simp [bumpAuthor, lookupCount, List.find?]
  | cons p rest ih =>
      obtain ⟨b, n⟩ := p
      by_cases hb : b = a
      · simp [bumpAuthor, hb, lookupCount, List.find?]
      · simp only [bumpAuthor, hb, if_false]
        simpa [lookupCount, List.find?, hb] using ih

theorem nodup_key_count_unique (m : List (List Char × Nat)) (a : List Char)
    (c₁ c₂ : Nat) (hnd : (m.map Prod.fst).Nodup)
    (h₁ : (a, c₁) ∈ m) (h₂ : (a, c₂) ∈ m) : c₁ = c₂ := by
  induction m with
  | nil => simp at h₁
  | cons p rest ih =>
      simp only [List.map_cons, List.nodup_cons] at hnd
      simp only [List.mem_cons] at h₁ h₂
      rcases h₁ with h₁ | h₁ <;> rcases h₂ with h₂ | h₂
      · exact ((Prod.ext_iff.mp (h₂.trans h₁.symm)).2).symm
      · exfalso
        apply hnd.1
        rw [← h₁]
        simpa using List.mem_map_of_mem Prod.fst h₂
      · exfalso
        apply hnd.1
        rw [← h₂]
        simpa using List.mem_map_of_mem Prod.fst h₁
      · exact ih hnd.2 h₁ h₂

theorem mem_count_le_sum (m : List (List Char × Nat)) (p : List Char × Nat)
    (h : p ∈ m) : p.2 ≤ (m.map Prod.snd).sum := by
  induction m with
  | nil => simp at h
  | cons q rest ih =>
      simp only [List.mem_cons] at h
      rcases h with h | h
      · subst h; simp
      · simp only [List.map_cons, List.sum_cons]
        exact le_add_of_nonneg_of_le (Nat.zero_le _) (ih h)

theorem lookupCount_of_mem (m : List (List Char × Nat)) (a : List Char)
    (c : Nat) (hnd : (m.map Prod.fst).Nodup) (h : (a, c) ∈ m) :
    lookupCount m a = c := by
  induction m with
  | nil => simp at h
  | cons p rest ih =>
      obtain ⟨b, n⟩ := p
      simp only [List.map_cons, List.nodup_cons] at hnd
      simp only [List.mem_cons] at h
      rcases h with h | h
      · obtain ⟨hb, hc⟩ := Prod.mk.injEq .. ▸ h.symm
        simp [lookupCount, List.find?, hb, hc]
      · have hb : b ≠ a := by
          intro hba
          apply hnd.1
          rw [hba]
          simpa using List.mem_map_of_mem Prod.fst h
        simpa [lookupCount, List.find?, hb] using ih hnd.2 h

/-- The fold step used by `maxByKeyLast`. -/
def maxStep (best y : List Char × Nat) : List Char × Nat :=
  if best.2 ≤ y.2 then y else best

theorem maxByKeyLast_eq_foldl (x : List Char × Nat) (xs : List (List Char × Nat)) :
    maxByKeyLast (x :: xs) = some (xs.foldl maxStep x) := rfl

theorem foldl_maxStep_mem (xs : List (List Char × Nat)) (x : List Char × Nat) :
    xs.foldl maxStep x ∈ x :: xs := by
  induction xs generalizing x with
  | nil => simp
  | cons y ys ih =>
      have h := ih (maxStep x y)
      simp only [List.foldl_cons]
      rcases List.mem_cons.mp h with h | h
      · rw [h]
        unfold maxStep
        split <;> simp
      · simp [h]

theorem left_le_maxStep (x z : List Char × Nat) : x.2 ≤ (maxStep x z).2 := by
  unfold maxStep; split <;> omega

theorem right_le_maxStep (x z : List Char × Nat) : z.2 ≤ (maxStep x z).2 := by
  unfold maxStep; split <;> omega

theorem foldl_maxStep_ge (xs : List (List Char × Nat)) :
    ∀ (x : List Char × Nat), ∀ y ∈ x :: xs, y.2 ≤ (xs.foldl maxStep x).2 := by
  induction xs with
  | nil =>
      intro x y h
      simp only [List.mem_cons, List.mem_singleton] at h
      simp at h
      simp [h]
  | cons z zs ih =>
      intro x y h
      simp only [List.foldl_cons]
      rcases List.mem_cons.mp h with h | h
      · subst h
        exact le_trans (left_le_maxStep y z) (ih (maxStep y z) _ (List.mem_cons_self _ _))
      · rcases List.mem_cons.mp h with h | h
        · subst h
          exact le_trans (right_le_maxStep x y) (ih (maxStep x y) _ (List.mem_cons_self _ _))
        · exact ih (maxStep x z) y (List.mem_cons.mpr (Or.inr h))

/-- Invariant of the blame-parsing loop: the author map has no duplicate
keys and its counts sum to `total_lines`. -/
def BlameInv (acc : BlameAcc) : Prop :=
  (acc.author_lines.map Prod.fst).Nodup ∧
    (acc.author_lines.map Prod.snd).sum = acc.total_lines

theorem processCodeLine_inv (acc : BlameAcc) (raw : List Char)
    (h : BlameInv acc) : BlameInv (processCodeLine acc raw) := by
  unfold processCodeLine
  dsimp only
  split
  · exact h
  · split
    · exact h
    · split
      · exact h
      · split
        · exact h
        · split
          · exact h
          · refine ⟨bumpAuthor_fst_nodup _ _ h.1, ?_⟩
            simp only [bumpAuthor_sum, h.2]

theorem blameStep_inv (acc : BlameAcc) (line : List Char)
    (h : BlameInv acc) : BlameInv (blameStep acc line) := by
  unfold blameStep
  split
  · exact h
  · split
    · exact processCodeLine_inv _ _ h
    · exact h

theorem runBlame_inv (lines : List (List Char)) : BlameInv (runBlame lines) := by
  unfold runBlame
  have : ∀ (ls : List (List Char)) (acc : BlameAcc), BlameInv acc →
      BlameInv (ls.foldl blameStep acc) := by
    intro ls
    induction ls with
    | nil => intro acc h; exact h
    | cons l rest ih => intro acc h; exact ih _ (blameStep_inv acc l h)
  exact this lines ⟨[], [], 0, false⟩ ⟨by simp, by simp⟩

/-!
## C1: the per-file ownership invariant
-/

/-- C1: for every analyzed file with a positive attributable line count
(equivalently, whenever `analyze_file` succeeds), the result satisfies
`ownership_percentage = owned lines of dominant_author / total lines * 100`,
the percentage lies in `[0, 100]`, `total_lines` is the parsed total, the
dominant author's count is maximal in the parsed author map, and any author
with a strictly highest owned-line count is the dominant author. -/
theorem C1_ownership_invariant (path content : List Char)
    (blameLines : List (List Char)) (r : BusFactorResult)
    (hok : analyze_file path content blameLines = .ok r) :
    0 ≤ r.ownership_percentage ∧ r.ownership_percentage ≤ 100 ∧
    r.total_lines = (runBlame blameLines).total_lines ∧
    r.ownership_percentage =
      ((lookupCount (runBlame blameLines).author_lines r.dominant_author : ℚ) /
        ((runBlame blameLines).total_lines : ℚ)) * 100 ∧
    (∀ p ∈ (runBlame blameLines).author_lines,
        p.2 ≤ lookupCount (runBlame blameLines).author_lines r.dominant_author) ∧
    (∀ a c, (a, c) ∈ (runBlame blameLines).author_lines →
        (∀ p ∈ (runBlame blameLines).author_lines, p.1 ≠ a → p.2 < c) →
        r.dominant_author = a) := by
  unfold analyze_file at hok
  split at hok
  · exact absurd hok (by simp)
  · set acc := runBlame blameLines with hacc
    dsimp only at hok
    split at hok
    · exact absurd hok (by simp)
    · rename_i htotal
      have hinv := runBlame_inv blameLines
      rw [← hacc] at hinv
      obtain ⟨hnd, hsum⟩ := hinv
      -- the author list is non-empty because the counts sum to a positive total
      obtain ⟨x, xs, hxs⟩ : ∃ x xs, acc.author_lines = x :: xs := by
        cases hal : acc.author_lines with
        | nil => rw [hal] at hsum; simp at hsum; omega
        | cons x xs => exact ⟨x, xs, rfl⟩
      have hmax : maxByKeyLast acc.author_lines = some (xs.foldl maxStep x) := by
        rw [hxs]; rfl
      set d := xs.foldl maxStep x with hd
      have hdmem : d ∈ acc.author_lines := by
        rw [hxs]; exact foldl_maxStep_mem xs x
      have hdge : ∀ p ∈ acc.author_lines, p.2 ≤ d.2 := by
        rw [hxs]
        intro p hp
        exact foldl_maxStep_ge xs x p hp
      have hlk : lookupCount acc.author_lines d.1 = d.2 :=
        lookupCount_of_mem _ _ _ hnd (by simpa using hdmem)
      have hr : r = { path := path, dominant_author := d.1,
                      ownership_percentage := ((d.2 : ℚ) / (acc.total_lines : ℚ)) * 100,
                      total_lines := acc.total_lines } := by
        rw [hmax] at hok
        simp only [Option.getD_some] at hok
        injection hok with h
        exact h.symm
      have hdle : d.2 ≤ acc.total_lines := by
        rw [← hsum]
        exact mem_count_le_sum _ _ hdmem
      have htpos : 0 < acc.total_lines := Nat.pos_of_ne_zero htotal
      have htposQ : (0 : ℚ) < (acc.total_lines : ℚ) := by exact_mod_cast htpos
      refine ⟨?_, ?_, ?_, ?_, ?_, ?_⟩
      · rw [hr]
        positivity
      · rw [hr]
        simp only
        rw [div_mul_eq_mul_div, div_le_iff₀ htposQ]
        have : (d.2 : ℚ) ≤ (acc.total_lines : ℚ) := by exact_mod_cast hdle
        nlinarith
      · rw [hr]
      · rw [hr]
        simp only
        rw [hlk]
      · intro p hp
        rw [hr]
        simp only
        rw [hlk]
        exact hdge p hp
      · intro a c hac hstrict
        rw [hr]
        simp only
        by_contra hne
        have hlt : d.2 < c := hstrict d hdmem hne
        have hge : c ≤ d.2 := hdge (a, c) hac
        omega

/-- Concrete blame stream for the C1 witness: author X owns three lines,
author Y one line. -/
def c1Blame : List (List Char) :=
  [ "author X".data, "\tline a".data, "\tline b".data, "\tline c".data,
    "author Y".data, "\tline d".data ]

/-- The result `analyze_file` produces on `c1Blame`. -/
def c1Result : BusFactorResult :=
  ⟨ "f.rs".data, "X".data, 75, 4 ⟩

/-- Witness for C1: the theorem applied to the concrete four-line file where
X owns three lines (75%). -/
theorem C1_ownership_invariant_witness :
    0 ≤ c1Result.ownership_percentage ∧ c1Result.ownership_percentage ≤ 100 ∧
    c1Result.total_lines = (runBlame c1Blame).total_lines ∧
    c1Result.ownership_percentage =
      ((lookupCount (runBlame c1Blame).author_lines c1Result.dominant_author : ℚ) /
        ((runBlame c1Blame).total_lines : ℚ)) * 100 := by
  have hok : analyze_file "f.rs".data "x".data c1Blame = .ok c1Result := by
    have hb : runBlame c1Blame = ⟨ "Y".data, [("X".data, 3), ("Y".data, 1)], 4, false ⟩ := by
      decide
    unfold analyze_file
    dsimp only
    rw [hb]
    norm_num [maxByKeyLast, maxStep, c1Result]
    intro hempty
    exact absurd hempty (by decide)
  have h := C1_ownership_invariant "f.rs".data "x".data c1Blame c1Result hok
  exact ⟨h.1, h.2.1, h.2.2.1, h.2.2.2.1⟩

/-!
## C3: which lines the attribution parser counts

`claimCommentStep` renders the comment heuristic exactly as the
specification sentence states it, for comparison against the parser embedded
from the source (`processCodeLine`).
-/

/-- Modelled from the spec's words (C3, spec §4.1): a line empty after
trimming is excluded; a line beginning with `//` is excluded; a line
beginning with `/*` is excluded together with every subsequent line up to
and including the line ending in `*/` (so the block closes on the first line
ending in `*/`, including the opening line itself); lines inside such a
block — in particular those beginning with `*` — are excluded; all other
lines are counted.  Returns (counted?, in-block-after). -/
def claimCommentStep (inBlock : Bool) (raw : List Char) : Bool × Bool :=
  let code := trimL raw
  if code.isEmpty then (false, inBlock)
  else if inBlock then (false, ! endsWithL code "*/".data)
  else if startsWithL code "/*".data then (false, ! endsWithL code "*/".data)
  else if startsWithL code "//".data then (false, false)
  else (true, false)

/-- Number of lines the specification's rule counts, starting from a given
block state. -/
def claimLineCount (inBlock : Bool) : List (List Char) → Nat
  | [] => 0
  | l :: rest =>
      let s := claimCommentStep inBlock l
      (if s.1 then 1 else 0) + claimLineCount s.2 rest

/-- The comment heuristic as the code actually implements it
(src/bus_factor.rs, lines 126–149), stated in the spec's style: a line
beginning with `/*` is excluded and opens a block even when the same line
ends in `*/`; otherwise a line ending in `*/` is excluded and closes the
block whether or not one is open; otherwise a line is excluded when the
block is open or it begins with `*`; otherwise a line beginning with `//`
is excluded; every other non-blank line is counted. -/
def amendedCommentStep (inBlock : Bool) (raw : List Char) : Bool × Bool :=
  let code := trimL raw
  if code.isEmpty then (false, inBlock)
  else if startsWithL code "/*".data then (false, true)
  else if endsWithL code "*/".data then (false, false)
  else if inBlock || startsWithL code "*".data then (false, inBlock)
  else if startsWithL code "//".data then (false, inBlock)
  else (true, inBlock)

/-- Number of lines counted under the amended (code-accurate) rule. -/
def amendedLineCount (inBlock : Bool) : List (List Char) → Nat
  | [] => 0
  | l :: rest =>
      let s := amendedCommentStep inBlock l
      (if s.1 then 1 else 0) + amendedLineCount s.2 rest

theorem amendedLineCount_cons (b : Bool) (l : List Char) (rest : List (List Char)) :
    amendedLineCount b (l :: rest) =
      (if (amendedCommentStep b l).1 then 1 else 0) +
        amendedLineCount (amendedCommentStep b l).2 rest := rfl

/-- Counterexample to C3 as stated: a single line `*x` begins with `*`
outside any comment block.  The spec's rule counts it (it is non-empty and
none of the exclusions apply outside a block); the code excludes any line
beginning with `*` regardless of block state, so the parser counts zero
lines. -/
theorem C3_counterexample :
    (List.foldl processCodeLine ⟨ [], [], 0, false ⟩ [ "*x".data ]).total_lines
      ≠ claimLineCount false [ "*x".data ] := by
  decide

theorem processCodeLine_amendedStep (acc : BlameAcc) (raw : List Char) :
    (processCodeLine acc raw).total_lines =
      acc.total_lines +
        (if (amendedCommentStep acc.in_multiline_comment raw).1 then 1 else 0) ∧
    (processCodeLine acc raw).in_multiline_comment =
      (amendedCommentStep acc.in_multiline_comment raw).2 := by
  unfold processCodeLine amendedCommentStep
  dsimp only
  split_ifs <;> simp_all

/-- C3, amended: over any attribution stream and from any starting state,
the parser's total is exactly the number of lines the amended rule counts:
non-empty after trimming, and surviving the code's exclusion cascade
(`/*` opens a block even when the line also ends in `*/`; a line ending in
`*/` is excluded and closes the block regardless of state; lines in an open
block or beginning with `*` are excluded; lines beginning with `//` are
excluded). -/
theorem C3_attribution_count_amended (lines : List (List Char)) (acc : BlameAcc) :
    (List.foldl processCodeLine acc lines).total_lines =
      acc.total_lines + amendedLineCount acc.in_multiline_comment lines := by
  induction lines generalizing acc with
  | nil => simp [amendedLineCount]
  | cons l rest ih =>
      simp only [List.foldl_cons]
      rw [ih (processCodeLine acc l)]
      have h := processCodeLine_amendedStep acc l
      rw [h.1, h.2, amendedLineCount_cons]
      omega

/-!
## C4: unanalyzable files fail and are skipped by the walk
-/

theorem foldl_results_eq (th : ℚ) (files : List SourceFile)
    (init : List BusFactorResult) :
    files.foldl
      (fun results f =>
        match analyze_file f.path f.content f.blame with
        | .ok r =>
            if th ≤ r.ownership_percentage then results ++ [r] else results
        | .error _ => results) init
      = init ++ files.filterMap (fun f =>
          match analyze_file f.path f.content f.blame with
          | .ok r => if th ≤ r.ownership_percentage then some r else none
          | .error _ => none) := by
  induction files generalizing init with
  | nil => simp
  | cons f rest ih =>
      simp only [List.foldl_cons, List.filterMap_cons]
      cases hr : analyze_file f.path f.content f.blame with
      | ok r =>
          by_cases hth : th ≤ r.ownership_percentage
          · simp [hth, ih]
          · simp [hth, ih]
      | error e => simp [ih]

/-- C4: a file whose attribution stream yields zero attributable lines makes
`analyze_file` fail with an error (never a zero-ownership result), and the
directory walk is exactly a filter-map over the visited files — per-file
failures select `none` and are skipped without aborting the walk. -/
theorem C4_unanalyzable_skipped (p c : List Char) (bl : List (List Char))
    (th : ℚ) (files : List SourceFile)
    (h0 : (runBlame bl).total_lines = 0) :
    (∃ e : String, analyze_file p c bl = .error e) ∧
    analyze_directory th files = files.filterMap (fun f =>
      match analyze_file f.path f.content f.blame with
      | .ok r => if th ≤ r.ownership_percentage then some r else none
      | .error _ => none) := by
  constructor
  · unfold analyze_file
    dsimp only
    by_cases hc : (trimL c).isEmpty
    · exact ⟨ "Empty file", by simp [hc] ⟩
    · exact ⟨ "No lines to analyze", by simp [hc, h0] ⟩
  · unfold analyze_directory
    simpa using foldl_results_eq th files []

/-- Witness for C4: a file with empty blame output fails, and in a two-file
walk the failing file is omitted while the healthy second file survives. -/
theorem C4_unanalyzable_skipped_witness :
    (analyze_file "b.rs".data "x".data []).isOk = false ∧
    analyze_directory 0
        [ ⟨ "b.rs".data, "x".data, [] ⟩,
          ⟨ "g.rs".data, "x".data, [ "author X".data, "\ty = 1".data ] ⟩ ]
      = ([ ⟨ "b.rs".data, "x".data, [] ⟩,
           ⟨ "g.rs".data, "x".data, [ "author X".data, "\ty = 1".data ] ⟩ ] :
            List SourceFile).filterMap
          (fun f =>
            match analyze_file f.path f.content f.blame with
            | .ok r => if (0 : ℚ) ≤ r.ownership_percentage then some r else none
            | .error _ => none) := by
  have h := C4_unanalyzable_skipped "b.rs".data "x".data [] 0
    [ ⟨ "b.rs".data, "x".data, [] ⟩,
      ⟨ "g.rs".data, "x".data, [ "author X".data, "\ty = 1".data ] ⟩ ]
    (by decide)
  refine ⟨?_, h.2⟩
  obtain ⟨e, he⟩ := h.1
  rw [he]
  rfl

/-!
## C5: the hotspot fold step
-/

theorem foldEvent_path (h : FileHotspot) (t : Int) (a : List Char) :
    (foldEvent h t a).path = h.path := rfl

/-- C5: folding one commit-change event into a `FileHotspot` increments
`commit_count` by exactly one, sets `last_modified` to the maximum of the
old value and the event timestamp, increments the author's contributor
entry by one, and keeps `contributor_count` equal to the cardinality of the
contributor map (whose keys stay duplicate-free). -/
theorem C5_fold_step (h : FileHotspot) (t : Int) (a : List Char)
    (hnd : (h.contributors.map Prod.fst).Nodup) :
    (foldEvent h t a).commit_count = h.commit_count + 1 ∧
    (foldEvent h t a).last_modified = max h.last_modified t ∧
    lookupCount (foldEvent h t a).contributors a =
      lookupCount h.contributors a + 1 ∧
    (foldEvent h t a).contributor_count =
      ((foldEvent h t a).contributors.map Prod.fst).toFinset.card ∧
    ((foldEvent h t a).contributors.map Prod.fst).Nodup := by
  refine ⟨rfl, ?_, ?_, ?_, ?_⟩
  · show (if h.last_modified < t then t else h.last_modified) = _
    omega
  · show lookupCount (bumpAuthor h.contributors a) a = _
    exact lookupCount_bump_self _ _
  · show (bumpAuthor h.contributors a).length =
      ((bumpAuthor h.contributors a).map Prod.fst).toFinset.card
    rw [List.toFinset_card_of_nodup (bumpAuthor_fst_nodup h.contributors a hnd)]
    simp
  · exact bumpAuthor_fst_nodup h.contributors a hnd

/-- Witness for C5: fold an event by the new author Y at time 3 into a
hotspot last modified at time 5 with one commit by X. -/
theorem C5_fold_step_witness :
    (foldEvent ⟨ "a.rs".data, 1, 1, 5, [("X".data, 1)] ⟩ 3 "Y".data).commit_count
        = 1 + 1 ∧
    (foldEvent ⟨ "a.rs".data, 1, 1, 5, [("X".data, 1)] ⟩ 3 "Y".data).last_modified
        = max 5 3 ∧
    lookupCount
        (foldEvent ⟨ "a.rs".data, 1, 1, 5, [("X".data, 1)] ⟩ 3 "Y".data).contributors
        "Y".data
      = lookupCount [("X".data, 1)] "Y".data + 1 ∧
    (foldEvent ⟨ "a.rs".data, 1, 1, 5, [("X".data, 1)] ⟩ 3 "Y".data).contributor_count
      = ((foldEvent ⟨ "a.rs".data, 1, 1, 5, [("X".data, 1)] ⟩ 3 "Y".data).contributors.map
          Prod.fst).toFinset.card ∧
    ((foldEvent ⟨ "a.rs".data, 1, 1, 5, [("X".data, 1)] ⟩ 3 "Y".data).contributors.map
        Prod.fst).Nodup :=
  C5_fold_step ⟨ "a.rs".data, 1, 1, 5, [("X".data, 1)] ⟩ 3 "Y".data (by decide)

/-!
## C6: ranking of ownership results
-/

/-- Counterexample to C6 as stated: `analyze_path` pushes results in
directory-walk order and never sorts them (sorting happens only inside
`format_bus_factor_report` on a copy).  Walking a 50%-owned file before a
100%-owned file returns the sequence [50%, 100%], which is not
non-increasing in `ownership_percentage`. -/
theorem C6_counterexample :
    ¬ List.Sorted
        (fun a b : BusFactorResult =>
          b.ownership_percentage ≤ a.ownership_percentage)
        (analyze_directory 0
          [ ⟨ "f1.rs".data, "x".data,
              [ "author X".data, "\ty = 1".data,
                "author Y".data, "\tz = 2".data ] ⟩,
            ⟨ "f2.rs".data, "x".data, [ "author X".data, "\ty = 1".data ] ⟩ ]) := by
  have e1 : analyze_file "f1.rs".data "x".data
      [ "author X".data, "\ty = 1".data, "author Y".data, "\tz = 2".data ]
      = .ok ⟨ "f1.rs".data, "Y".data, 50, 2 ⟩ := by
    have hb : runBlame
        [ "author X".data, "\ty = 1".data, "author Y".data, "\tz = 2".data ]
        = ⟨ "Y".data, [("X".data, 1), ("Y".data, 1)], 2, false ⟩ := by decide
    unfold analyze_file
    dsimp only
    rw [hb]
    norm_num [maxByKeyLast, maxStep]
    intro hempty
    exact absurd hempty (by decide)
  have e2 : analyze_file "f2.rs".data "x".data
      [ "author X".data, "\ty = 1".data ]
      = .ok ⟨ "f2.rs".data, "X".data, 100, 1 ⟩ := by
    have hb : runBlame [ "author X".data, "\ty = 1".data ]
        = ⟨ "X".data, [("X".data, 1)], 1, false ⟩ := by decide
    unfold analyze_file
    dsimp only
    rw [hb]
    norm_num [maxByKeyLast, maxStep]
    intro hempty
    exact absurd hempty (by decide)
  unfold analyze_directory
  simp only [List.foldl_cons, List.foldl_nil, e1, e2]
  norm_num [List.Sorted, List.pairwise_cons]

theorem busFactorLe_trans (a b c : BusFactorResult)
    (hab : busFactorLe a b = true) (hbc : busFactorLe b c = true) :
    busFactorLe a c = true := by
  simp only [busFactorLe, Bool.or_eq_true, Bool.and_eq_true,
    decide_eq_true_eq] at *
  rcases hab with h1 | ⟨h1, h2⟩ <;> rcases hbc with h3 | ⟨h3, h4⟩
  · exact Or.inl (lt_trans h3 h1)
  · left; rw [h3]; exact h1
  · left; rw [← h1]; exact h3
  · right; exact ⟨h3.trans h1, le_trans h4 h2⟩

theorem busFactorLe_total (a b : BusFactorResult) :
    (busFactorLe a b || busFactorLe b a) = true := by
  simp only [busFactorLe, Bool.or_eq_true, Bool.and_eq_true,
    decide_eq_true_eq]
  rcases lt_trichotomy a.ownership_percentage b.ownership_percentage with h | h | h
  · exact Or.inr (Or.inl h)
  · rcases Nat.le_total b.total_lines a.total_lines with hl | hl
    · exact Or.inl (Or.inr ⟨h.symm, hl⟩)
    · exact Or.inr (Or.inr ⟨h, hl⟩)
  · exact Or.inl (Or.inl h)

/-- C6, amended: `analyze_path` returns results in directory-walk order and
does not sort; the sorting the claim describes is performed by
`format_bus_factor_report` on its copy of the results, and that sorted copy
is non-increasing in `ownership_percentage` with ties broken non-increasing
by `total_lines`. -/
theorem C6_report_ranking_amended (l : List BusFactorResult) :
    List.Pairwise
      (fun a b : BusFactorResult =>
        b.ownership_percentage < a.ownership_percentage ∨
          (b.ownership_percentage = a.ownership_percentage ∧
            b.total_lines ≤ a.total_lines))
      (sortBusFactorResults l) := by
  have hs := List.sorted_mergeSort busFactorLe_trans busFactorLe_total l
  have hs' : List.Pairwise (fun a b => busFactorLe a b = true)
      (sortBusFactorResults l) := hs
  exact hs'.imp (by
    intro a b hab
    simpa [busFactorLe, Bool.or_eq_true, Bool.and_eq_true,
      decide_eq_true_eq] using hab)

/-- Decidable equality for `Except`, used to evaluate the embedded
operations on concrete inputs. -/
instance {e a : Type} [DecidableEq e] [DecidableEq a] : DecidableEq (Except e a) :=
  fun x y =>
    match x, y with
    | .ok u, .ok v =>
        if h : u = v then .isTrue (by rw [h])
        else .isFalse (fun hc => h (by injection hc))
    | .error u, .error v =>
        if h : u = v then .isTrue (by rw [h])
        else .isFalse (fun hc => h (by injection hc))
    | .ok _, .error _ => .isFalse (fun hc => by injection hc)
    | .error _, .ok _ => .isFalse (fun hc => by injection hc)

/-!
## C7: ranking of churn and expertise results
-/

theorem hotspotLe_trans (a b c : FileHotspot)
    (hab : decide (b.commit_count ≤ a.commit_count) = true)
    (hbc : decide (c.commit_count ≤ b.commit_count) = true) :
    decide (c.commit_count ≤ a.commit_count) = true := by
  simp only [decide_eq_true_eq] at *
  omega

theorem hotspotLe_total (a b : FileHotspot) :
    (decide (b.commit_count ≤ a.commit_count) ||
      decide (a.commit_count ≤ b.commit_count)) = true := by
  simp only [Bool.or_eq_true, decide_eq_true_eq]
  omega

theorem contributorLe_trans (a b c : ContributorStats)
    (hab : decide (b.commit_count ≤ a.commit_count) = true)
    (hbc : decide (c.commit_count ≤ b.commit_count) = true) :
    decide (c.commit_count ≤ a.commit_count) = true := by
  simp only [decide_eq_true_eq] at *
  omega

theorem contributorLe_total (a b : ContributorStats) :
    (decide (b.commit_count ≤ a.commit_count) ||
      decide (a.commit_count ≤ b.commit_count)) = true := by
  simp only [Bool.or_eq_true, decide_eq_true_eq]
  omega

/-- C7: every sequence `churn_analyze` returns is sorted non-increasing by
`commit_count` (the full, untruncated accumulation is returned — the result
is a permutation of the folded hotspot list), and every successful
`analyze_file_expertise` result is sorted non-increasing by
`commit_count`. -/
theorem C7_commit_count_ranking :
    (∀ (existing : List (List Char)) (events : List ChangeEvent),
        List.Pairwise
          (fun a b : FileHotspot => b.commit_count ≤ a.commit_count)
          (churn_analyze existing events) ∧
        (churn_analyze existing events).Perm
          (events.foldl
            (fun hs e =>
              process_file_change hs existing e.file_path e.commit_time e.author)
            [])) ∧
    (∀ (env : WkEnv) (stats : List ContributorStats),
        analyze_file_expertise env = .ok stats →
        List.Pairwise
          (fun a b : ContributorStats => b.commit_count ≤ a.commit_count)
          stats) := by
  constructor
  · intro existing events
    constructor
    · have hs := List.sorted_mergeSort hotspotLe_trans hotspotLe_total
        (events.foldl
          (fun hs e =>
            process_file_change hs existing e.file_path e.commit_time e.author)
          [])
      exact hs.imp (fun hab => of_decide_eq_true hab)
    · exact List.mergeSort_perm _ _
  · intro env stats hok
    unfold analyze_file_expertise at hok
    split at hok
    · simp at hok
    · split at hok
      · simp at hok
      · split at hok
        · simp at hok
        · split at hok
          · simp at hok
          · split at hok
            · simp at hok
            · split at hok
              · simp at hok
              · split at hok
                · simp at hok
                · rename_i m hm
                  injection hok with hinj
                  subst hinj
                  have hs := List.sorted_mergeSort contributorLe_trans
                    contributorLe_total m
                  exact hs.imp (fun hab => of_decide_eq_true hab)

/-- Witness for C7's expertise half: a log with two records by X and one by
Y yields a sorted result. -/
theorem C7_commit_count_ranking_witness :
    List.Pairwise
      (fun a b : ContributorStats => b.commit_count ≤ a.commit_count)
      [ ContributorStats.mk "X".data 2 7 5, ContributorStats.mk "Y".data 1 6 6 ] := by
  have hp : processLogLines []
      (rustLines "h1\tX\t5\nh2\tY\t6\nh3\tX\t7\n".data)
      = .ok [ ContributorStats.mk "X".data 2 7 5,
              ContributorStats.mk "Y".data 1 6 6 ] := by decide
  have hok : analyze_file_expertise
      ⟨ "f".data, true, true, true, true, true,
        "h1\tX\t5\nh2\tY\t6\nh3\tX\t7\n".data ⟩
      = .ok [ ContributorStats.mk "X".data 2 7 5,
              ContributorStats.mk "Y".data 1 6 6 ] := by
    unfold analyze_file_expertise
    dsimp only
    rw [hp]
    simp +decide [List.mergeSort]
  exact C7_commit_count_ranking.2
    ⟨ "f".data, true, true, true, true, true,
      "h1\tX\t5\nh2\tY\t6\nh3\tX\t7\n".data ⟩
    [ ContributorStats.mk "X".data 2 7 5, ContributorStats.mk "Y".data 1 6 6 ]
    hok

/-!
## C8: expertise analyzer error conditions
-/

/-- C8: `analyze_file_expertise` fails with `pathNotFound` when the path
does not exist, with a not-under-version-control error when no repository
root can be located (spawn failure or non-zero exit of `git rev-parse`),
and with `noHistory` when the history query returns no output; a non-empty
`ok` result implies none of these conditions held. -/
theorem C8_expertise_errors (env : WkEnv) :
    (env.path_exists = false →
        analyze_file_expertise env = .error (.pathNotFound env.path)) ∧
    (env.path_exists = true → env.rev_parse_spawned = false →
        analyze_file_expertise env = .error .notAGitRepository) ∧
    (env.path_exists = true → env.rev_parse_spawned = true →
        env.rev_parse_success = false →
        analyze_file_expertise env = .error .notInsideGitRepository) ∧
    (env.path_exists = true → env.rev_parse_spawned = true →
        env.rev_parse_success = true → env.git_log_spawned = true →
        env.git_log_success = true → (trimL env.log_output).isEmpty = true →
        analyze_file_expertise env = .error (.noHistory env.path)) ∧
    (∀ stats, analyze_file_expertise env = .ok stats → stats ≠ [] →
        env.path_exists = true ∧ env.rev_parse_spawned = true ∧
        env.rev_parse_success = true ∧
        (trimL env.log_output).isEmpty = false) := by
  refine ⟨?_, ?_, ?_, ?_, ?_⟩
  · intro h1
    unfold analyze_file_expertise
    simp [h1]
  · intro h1 h2
    unfold analyze_file_expertise
    simp [h1, h2]
  · intro h1 h2 h3
    unfold analyze_file_expertise
    simp [h1, h2, h3]
  · intro h1 h2 h3 h4 h5 h6
    unfold analyze_file_expertise
    simp [h1, h2, h3, h4, h5, h6]
  · intro stats hok hne
    by_cases h1 : env.path_exists = true
    · by_cases h2 : env.rev_parse_spawned = true
      · by_cases h3 : env.rev_parse_success = true
        · by_cases h6 : (trimL env.log_output).isEmpty = true
          · exfalso
            by_cases h4 : env.git_log_spawned = true
            · by_cases h5 : env.git_log_success = true
              · unfold analyze_file_expertise at hok
                simp [h1, h2, h3, h4, h5, h6] at hok
              · rw [Bool.not_eq_true] at h5
                unfold analyze_file_expertise at hok
                simp [h1, h2, h3, h4, h5] at hok
            · rw [Bool.not_eq_true] at h4
              unfold analyze_file_expertise at hok
              simp [h1, h2, h3, h4] at hok
          · rw [Bool.not_eq_true] at h6
            exact ⟨h1, h2, h3, h6⟩
        · exfalso
          rw [Bool.not_eq_true] at h3
          unfold analyze_file_expertise at hok
          simp [h1, h2, h3] at hok
      · exfalso
        rw [Bool.not_eq_true] at h2
        unfold analyze_file_expertise at hok
        simp [h1, h2] at hok
    · exfalso
      rw [Bool.not_eq_true] at h1
      unfold analyze_file_expertise at hok
      simp [h1] at hok

/-- Witness for C8: a missing path yields the path-not-found error. -/
theorem C8_expertise_errors_witness :
    analyze_file_expertise
        ⟨ "f".data, false, true, true, true, true, "h\tX\t5\n".data ⟩
      = .error (.pathNotFound "f".data) :=
  (C8_expertise_errors
    ⟨ "f".data, false, true, true, true, true, "h\tX\t5\n".data ⟩).1 rfl

/-!
## C9: the implicit source-file filter on hotspot results
-/

theorem process_file_change_preserves (hs : List FileHotspot)
    (ex : List (List Char)) (p : List Char) (t : Int) (a : List Char)
    (hall : ∀ h ∈ hs, is_source_file h.path = true) :
    ∀ h ∈ process_file_change hs ex p t a, is_source_file h.path = true := by
  intro h hmem
  unfold process_file_change at hmem
  split at hmem
  · exact hall h hmem
  · split at hmem
    · exact hall h hmem
    · rename_i hsrc
      have hsp : is_source_file p = true := by simpa using hsrc
      unfold updateHotspots at hmem
      split at hmem
      · rcases List.mem_map.mp hmem with ⟨h', hh', heq⟩
        by_cases hp : h'.path = p
        · rw [← heq, if_pos hp, foldEvent_path, hp]
          exact hsp
        · rw [← heq, if_neg hp]
          exact hall h' hh'
      · rcases List.mem_append.mp hmem with hm | hm
        · exact hall h hm
        · have hh : h = foldEvent ⟨p, 0, 0, t, []⟩ t a := by simpa using hm
          rw [hh, foldEvent_path]
          exact hsp

theorem churn_fold_source (ex : List (List Char)) (events : List ChangeEvent) :
    ∀ (init : List FileHotspot),
      (∀ h ∈ init, is_source_file h.path = true) →
      ∀ h ∈ events.foldl
          (fun hs e =>
            process_file_change hs ex e.file_path e.commit_time e.author) init,
        is_source_file h.path = true := by
  induction events with
  | nil => intro init hinit h hm; exact hinit h hm
  | cons e rest ih =>
      intro init hinit h hm
      simp only [List.foldl_cons] at hm
      exact ih _ (process_file_change_preserves _ _ _ _ _ hinit) h hm

/-- C9: every path in a churn-analysis result has a file extension and its
lowercased form ends with none of the ignored suffixes — a tracked file
with no extension or with an ignored suffix never appears, whatever its
commit activity. -/
theorem C9_source_filter (ex : List (List Char)) (events : List ChangeEvent)
    (h : FileHotspot) (hmem : h ∈ churn_analyze ex events) :
    hasExtensionL h.path = true ∧
    ∀ pat ∈ IGNORED_PATTERNS, endsWithL (toLowerL h.path) pat = false := by
  have hsrc : is_source_file h.path = true := by
    unfold churn_analyze at hmem
    dsimp only at hmem
    have hmem' := (List.mergeSort_perm _ _).mem_iff.mp hmem
    exact churn_fold_source ex events [] (by simp) h hmem'
  unfold is_source_file at hsrc
  dsimp only at hsrc
  split at hsrc
  · exact absurd hsrc (by simp)
  · rename_i hpat
    refine ⟨hsrc, ?_⟩
    intro pat hp
    rw [Bool.eq_false_iff]
    intro hpe
    exact hpat (List.any_eq_true.mpr ⟨pat, hp, hpe⟩)

/-- Witness for C9: the tracked source file `a.rs` appears in the result of
a one-event analysis, and the filter facts hold for it. -/
theorem C9_source_filter_witness :
    hasExtensionL
        ((⟨ "a.rs".data, 1, 1, 5, [("X".data, 1)] ⟩ : FileHotspot)).path = true ∧
    endsWithL
        (toLowerL ((⟨ "a.rs".data, 1, 1, 5, [("X".data, 1)] ⟩ : FileHotspot)).path)
        "md".data
      = false := by
  have hmem : (⟨ "a.rs".data, 1, 1, 5, [("X".data, 1)] ⟩ : FileHotspot)
      ∈ churn_analyze [ "a.rs".data ] [ ⟨ "a.rs".data, 5, "X".data ⟩ ] := by
    unfold churn_analyze
    dsimp only
    exact (List.mergeSort_perm _ _).mem_iff.mpr (by decide)
  have h := C9_source_filter [ "a.rs".data ] [ ⟨ "a.rs".data, 5, "X".data ⟩ ]
    ⟨ "a.rs".data, 1, 1, 5, [("X".data, 1)] ⟩ hmem
  exact ⟨h.1, h.2 "md".data (by decide)⟩

/-!
## C10: malformed history records
-/

theorem processLogLines_cons (m : List ContributorStats) (line : List Char)
    (rest : List (List Char)) :
    processLogLines m (line :: rest) =
      (if (line.splitOn '\t').length ≠ 3 then processLogLines m rest
       else
         match parseI64 ((line.splitOn '\t').getD 2 []) with
         | none => .error .timestampParseFailed
         | some ts =>
             match chronoFromTimestamp ts with
             | none => .error (.invalidTimestamp ts)
             | some dt =>
                 processLogLines
                   (updateContributors m ((line.splitOn '\t').getD 1 []) dt)
                   rest) := rfl

theorem processLogLines_ok_parses (ls : List (List Char)) :
    ∀ (m m' : List ContributorStats), processLogLines m ls = .ok m' →
      ∀ line ∈ ls, (line.splitOn '\t').length = 3 →
        parseI64 ((line.splitOn '\t').getD 2 []) ≠ none := by
  induction ls with
  | nil => intro m m' hok line hl; simp at hl
  | cons l rest ih =>
      intro m m' hok line hl h3
      rw [processLogLines_cons] at hok
      by_cases hlen : (l.splitOn '\t').length ≠ 3
      · rw [if_pos hlen] at hok
        rcases List.mem_cons.mp hl with hl | hl
        · subst hl; exact absurd h3 hlen
        · exact ih m m' hok line hl h3
      · rw [if_neg hlen] at hok
        cases hp : parseI64 ((l.splitOn '\t').getD 2 []) with
        | none => rw [hp] at hok; simp at hok
        | some ts =>
            rw [hp] at hok
            simp only [chronoFromTimestamp] at hok
            rcases List.mem_cons.mp hl with hl | hl
            · subst hl; rw [hp]; simp
            · exact ih _ m' hok line hl h3

theorem analyze_expertise_ok_processed (env : WkEnv)
    (stats : List ContributorStats)
    (hok : analyze_file_expertise env = .ok stats) :
    ∃ m, processLogLines [] (rustLines env.log_output) = .ok m := by
  unfold analyze_file_expertise at hok
  split at hok
  · simp at hok
  · split at hok
    · simp at hok
    · split at hok
      · simp at hok
      · split at hok
        · simp at hok
        · split at hok
          · simp at hok
          · split at hok
            · simp at hok
            · split at hok
              · simp at hok
              · rename_i m hm
                exact ⟨m, hm⟩

/-- C10: a history record with exactly three tab-separated fields whose
timestamp does not parse makes the whole line-processing fail with the
timestamp error, while a record with a different field count is skipped and
processing continues; consequently a successful analysis implies every
three-field record had a parseable timestamp (no partial results). -/
theorem C10_malformed_records :
    (∀ (m : List ContributorStats) (line : List Char)
        (rest : List (List Char)),
        (line.splitOn '\t').length ≠ 3 →
        processLogLines m (line :: rest) = processLogLines m rest) ∧
    (∀ (m : List ContributorStats) (line : List Char)
        (rest : List (List Char)),
        (line.splitOn '\t').length = 3 →
        parseI64 ((line.splitOn '\t').getD 2 []) = none →
        processLogLines m (line :: rest) = .error .timestampParseFailed) ∧
    (∀ (env : WkEnv) (stats : List ContributorStats),
        analyze_file_expertise env = .ok stats →
        ∀ line ∈ rustLines env.log_output,
          (line.splitOn '\t').length = 3 →
          parseI64 ((line.splitOn '\t').getD 2 []) ≠ none) := by
  refine ⟨?_, ?_, ?_⟩
  · intro m line rest hlen
    rw [processLogLines_cons, if_pos hlen]
  · intro m line rest hlen hp
    rw [processLogLines_cons, if_neg (by omega), hp]
  · intro env stats hok line hl h3
    obtain ⟨m, hm⟩ := analyze_expertise_ok_processed env stats hok
    exact processLogLines_ok_parses (rustLines env.log_output) [] m hm line hl h3

/-- Witness for C10: the record `a<TAB>b<TAB>c` has three fields and an
unparseable timestamp, so processing it fails with the timestamp error. -/
theorem C10_malformed_records_witness :
    processLogLines [] [ "a\tb\tc".data ] = .error .timestampParseFailed :=
  C10_malformed_records.2.1 [] "a\tb\tc".data [] (by decide) (by decide)

/-!
## C2: the existing-file filter on hotspot results
-/

/-- C2 fails on the code: with the single tracked file `a.rs` (whose parent
directory is the empty path), every event path starts with that empty
parent, so the early return in `process_file_change` never fires and the
long-deleted `deleted.rs` — absent from the tracked listing — still appears
in the churn result. -/
theorem C2_untracked_path_reported :
    "deleted.rs".data ∉ [ "a.rs".data ] ∧
    ∃ h ∈ churn_analyze [ "a.rs".data ]
        [ ⟨ "deleted.rs".data, 100, "X".data ⟩ ],
      h.path = "deleted.rs".data := by
  refine ⟨by decide, ⟨ "deleted.rs".data, 1, 1, 100, [("X".data, 1)] ⟩, ?_, rfl⟩
  unfold churn_analyze
  dsimp only
  exact (List.mergeSort_perm _ _).mem_iff.mpr (by decide)
